import Mathlib

/-!
Verification of `bin/pip_find_builddeps.py`.

The script is embedded shallowly: Python strings become `List Char`
(compared, like Python `str`, by code point), Python sets of strings become
their canonically sorted duplicate-free member lists, the filesystem and
the external `pip download` process become explicit state passed through
the functions, and Python exceptions become `Except` values.  Each
definition mirrors one function of the source file.
-/

/-- A Python string, as its list of code points. -/
abbrev PyStr := List Char

/-- Python `\s` on `str`: the ASCII whitespace characters together with the
Unicode whitespace code points that the CPython `re` module accepts. -/
def pyIsSpace (c : Char) : Bool :=
  let n := c.toNat
  n == 32 || (9 ≤ n && n ≤ 13) || (28 ≤ n && n ≤ 31) || n == 133 || n == 160 ||
  n == 5760 || (8192 ≤ n && n ≤ 8202) || n == 8232 || n == 8233 || n == 8239 ||
  n == 8287 || n == 12288

/-- Character class `[^\s;]` of the `requirement_re` used by
`_filter_builddeps`. -/
def isReqChar (c : Char) : Bool := !pyIsSpace c && c != ';'

/-- Character class `[^\s#;]` of the `requirement_re` used by
`_parse_requirements_file`. -/
def isPlainReqChar (c : Char) : Bool := !pyIsSpace c && c != '#' && c != ';'

/-- Python string comparison `a < b`: lexicographic on code points. -/
def charLt (a b : Char) : Bool := decide (a < b)

/-- Lexicographic order on Python strings, as Python `sorted` uses. -/
def lexLt : PyStr → PyStr → Bool
  | [], [] => false
  | [], _ :: _ => true
  | _ :: _, [] => false
  | a :: as, b :: bs => charLt a b || (a == b && lexLt as bs)

/-- Insert a string into a sorted duplicate-free list, keeping it sorted and
duplicate-free. -/
def insertSorted (x : PyStr) : List PyStr → List PyStr
  | [] => [x]
  | y :: ys =>
    if lexLt x y then x :: y :: ys
    else if x == y then y :: ys
    else y :: insertSorted x ys

/-- Python `sorted(set(xs))`, and also the canonical representation chosen
here for a Python `set` of strings: the sorted duplicate-free list of its
members. -/
def pySortedSet (xs : List PyStr) : List PyStr := xs.foldr insertSorted []

/-- Python set difference `a - b` on canonical representations: `a` sorted
and duplicate-free stays sorted and duplicate-free after the filter, so the
result is again canonical (it is `sorted(set(a) - set(b))`). -/
def pySetDiff (a b : List PyStr) : List PyStr := a.filter (fun x => !(b.contains x))

/-- The literal part `Collecting ` of the `builddep_re` pattern
`^\s+Collecting ([^\s;]+)` from `_filter_builddeps`. -/
def collectingMarker : PyStr := "Collecting ".toList

/-- Result of `builddep_re.match(line)` for one log line: `^\s+` demands a
non-empty run of leading whitespace, then the literal marker, then the
captured group `([^\s;]+)`, a non-empty maximal run of requirement
characters.  Greedy matching of `\s+` and of the group coincides with
`takeWhile` here because the marker starts with a non-whitespace character
and the group stops exactly at the first non-requirement character. -/
def matchBuilddep (line : PyStr) : Option PyStr :=
  let ws := line.takeWhile pyIsSpace
  let rest := line.dropWhile pyIsSpace
  if ws.isEmpty then none
  else if rest.take collectingMarker.length = collectingMarker then
    let tok := (rest.drop collectingMarker.length).takeWhile isReqChar
    if tok.isEmpty then none else some tok
  else none

/-- Scanning body of `_filter_builddeps`: collect the matched groups of all
matching lines into a set and return `sorted(builddeps)`. -/
def filter_builddeps_lines (lines : List PyStr) : List PyStr :=
  pySortedSet (lines.filterMap matchBuilddep)

/-- Result of `requirement_re.match(line)` in `_parse_requirements_file`:
the pattern `^([^\s#;]+)` captures the non-empty maximal leading run of
plain requirement characters. -/
def matchRequirement (line : PyStr) : Option PyStr :=
  let tok := line.takeWhile isPlainReqChar
  if tok.isEmpty then none else some tok

/-- Python `"\n".join(lines)`. -/
def joinLines : List PyStr → PyStr
  | [] => []
  | [l] => l
  | l :: l' :: ls => l ++ '\n' :: joinLines (l' :: ls)

/-- Splitting a text on `'\n'`, the inverse view of `joinLines` used to
state what lines an output artifact consists of. -/
def splitLines : PyStr → List PyStr
  | [] => [[]]
  | c :: cs =>
    match splitLines cs with
    | [] => [[c]]
    | l :: ls => if c = '\n' then [] :: l :: ls else (c :: l) :: ls

/-- Content built by `generate_file_content(builddeps, is_partial)`; the
generator name and the `datetime.now()` timestamp are environment inputs. -/
def generate_file_content (script_name now : PyStr) (builddeps : List PyStr)
    (incomplete : Bool) : PyStr :=
  let header := "# Generated by ".toList ++ script_name ++ " on ".toList ++ now
  let lines := [header]
  let lines :=
    if builddeps.isEmpty then lines ++ ["# <no build dependencies found>".toList]
    else lines ++ builddeps
  let lines :=
    if incomplete then lines ++ ["# <pip download failed, output may be incomplete!>".toList]
    else lines
  joinLines lines

/-- Filesystem state: files with their lines, and existing directories.
Lookup takes the first matching entry, so prepending overwrites. -/
structure FS where
  files : List (PyStr × List PyStr)
  dirs : List PyStr
deriving DecidableEq

/-- Read a file: `some` lines, or `none` when the path does not exist. -/
def fsRead (fs : FS) (path : PyStr) : Option (List PyStr) :=
  (fs.files.find? (fun e => e.1 == path)).map (fun e => e.2)

/-- Create or truncate-and-write a file, as `open(path, "w")` plus writes. -/
def fsWrite (fs : FS) (path : PyStr) (content : List PyStr) : FS :=
  ⟨(path, content) :: fs.files, fs.dirs⟩

/-- Create a fresh directory, as `tempfile.mkdtemp` does. -/
def fsMkdtemp (fs : FS) (dir : PyStr) : FS :=
  ⟨fs.files, dir :: fs.dirs⟩

/-- Path prefix test used to model deletion of a directory tree. -/
def startsWith (pre s : PyStr) : Bool := s.take pre.length == pre

/-- Delete a directory and everything under it, as `shutil.rmtree` does. -/
def fsRmtree (fs : FS) (dir : PyStr) : FS :=
  ⟨fs.files.filter (fun e => !(startsWith dir e.1)),
   fs.dirs.filter (fun p => !(startsWith dir p))⟩

/-- Behaviour of the external `pip download` process in one run: whether it
exits zero, and the lines it writes into the capture file before
terminating. -/
structure PipWorld where
  ok : Bool
  output : List PyStr
deriving DecidableEq

/-- The Python exceptions the script can see. -/
inductive PyExc where
  | findBuilddepsError (msg : PyStr)
  | fileNotFoundError (path : PyStr)
deriving DecidableEq

/-- Equality on `Except` values is decidable componentwise; used to evaluate
the model on concrete runs. -/
instance {ε α : Type} [DecidableEq ε] [DecidableEq α] : DecidableEq (Except ε α) := fun a b =>
  match a, b with
  | Except.ok x, Except.ok y =>
    if h : x = y then isTrue (by rw [h]) else isFalse (by intro hc; cases hc; exact h rfl)
  | Except.error x, Except.error y =>
    if h : x = y then isTrue (by rw [h]) else isFalse (by intro hc; cases hc; exact h rfl)
  | Except.ok _, Except.error _ => isFalse (by intro hc; cases hc)
  | Except.error _, Except.ok _ => isFalse (by intro hc; cases hc)

/-- Command line built by `_pip_download`. -/
def pip_cmd (tmpdir : PyStr) (no_cache : Bool) (requirements_files : List PyStr) :
    List PyStr :=
  ["pip".toList, "download".toList, "-d".toList, tmpdir, "--no-binary".toList,
   ":all:".toList, "--use-pep517".toList, "--verbose".toList]
  ++ (if no_cache then ["--no-cache-dir".toList] else [])
  ++ requirements_files.foldr (fun f acc => "-r".toList :: f :: acc) []

/-- Model of `_pip_download`: `open(output_file, "w")` creates the capture
file before the process is launched, then the process writes its output
there and reports its exit status.  The capture file therefore exists with
the produced output even when the process fails. -/
def _pip_download (fs : FS) (pw : PipWorld) (requirements_files : List PyStr)
    (output_file : PyStr) (tmpdir : PyStr) (no_cache : Bool) : FS × Bool :=
  let _cmd := pip_cmd tmpdir no_cache requirements_files
  (fsWrite fs output_file pw.output, pw.ok)

/-- Model of `_filter_builddeps`: open the capture file (raising
`FileNotFoundError` when it is missing) and scan it. -/
def _filter_builddeps (fs : FS) (path : PyStr) : Except PyExc (List PyStr) :=
  match fsRead fs path with
  | none => Except.error (PyExc.fileNotFoundError path)
  | some lines => Except.ok (filter_builddeps_lines lines)

/-- Model of `_parse_requirements_file`: the Python set it builds is
represented canonically by its sorted member list; a missing file gives the
empty set. -/
def _parse_requirements_file (fs : FS) (path : PyStr) : List PyStr :=
  match fsRead fs path with
  | none => []
  | some lines => pySortedSet (lines.filterMap matchRequirement)

/-- Path of the capture file inside the scratch directory. -/
def pip_output_file (tmpdir : PyStr) : PyStr :=
  tmpdir ++ "/pip-download-output.txt".toList

/-- Message of the `FindBuilddepsError` raised by `find_builddeps`. -/
def pipFailMsg (tmpdir : PyStr) : PyStr :=
  "Pip download failed, see ".toList ++ pip_output_file tmpdir ++ " for more info".toList

/-- Model of `find_builddeps`: create the scratch directory, run the
downloader, on failure either raise `FindBuilddepsError` or tolerate it and
mark the result incomplete, scan the capture file, and remove the scratch
directory only when the download succeeded. -/
def find_builddeps (fs : FS) (tmpdir : PyStr) (pw : PipWorld)
    (requirements_files : List PyStr) (no_cache ignore_errors : Bool) :
    Except PyExc (List PyStr × Bool) × FS :=
  let fs1 := fsMkdtemp fs tmpdir
  let out := pip_output_file tmpdir
  let dl := _pip_download fs1 pw requirements_files out tmpdir no_cache
  let fs2 := dl.1
  if !dl.2 && !ignore_errors then
    (Except.error (PyExc.findBuilddepsError (pipFailMsg tmpdir)), fs2)
  else
    let incomplete := !dl.2
    match _filter_builddeps fs2 out with
    | Except.error e => (Except.error e, fs2)
    | Except.ok builddeps =>
      if incomplete then (Except.ok (builddeps, incomplete), fs2)
      else (Except.ok (builddeps, incomplete), fsRmtree fs2 tmpdir)

/-- Parsed command line of the script. -/
structure Args where
  requirements_files : List PyStr
  output_file : Option PyStr
  append : Bool
  no_cache : Bool
  ignore_errors : Bool
  only_write_on_update : Bool
deriving DecidableEq

/-- Environment of one invocation: generator name, current timestamp, the
fresh scratch directory name, and the behaviour of the downloader. -/
structure World where
  script_name : PyStr
  now : PyStr
  tmpdir : PyStr
  pip : PipWorld
deriving DecidableEq

/-- Model of `_sanity_check_args`: `true` means `ap.error` is called. -/
def _sanity_check_args (args : Args) : Bool :=
  args.only_write_on_update && args.output_file.isNone

/-- Observable outcome of `main`. -/
inductive MainResult where
  | usage_error : MainResult
  | raised (e : PyExc) : MainResult
  | skipped_write : MainResult
  | wrote_file (path : PyStr) (append_mode : Bool) (content : PyStr) : MainResult
  | wrote_stdout (content : PyStr) : MainResult
deriving DecidableEq

/-- Model of `main`: argument sanity check, discovery, the
`only_write_on_update` reconciliation block, formatting, and the final
write to the output file or to standard output.  The `getD []` argument is
only reached when `output_file` is present, exactly as in the source where
the sanity check has already ruled the `None` case out. -/
def script_main (fs : FS) (w : World) (args : Args) : MainResult × FS :=
  if _sanity_check_args args then
    (MainResult.usage_error, fs)
  else
    match find_builddeps fs w.tmpdir w.pip args.requirements_files
        args.no_cache args.ignore_errors with
    | (Except.error e, fs') => (MainResult.raised e, fs')
    | (Except.ok (builddeps, incomplete), fs') =>
      let write_out : List PyStr → MainResult × FS := fun builddeps =>
        let content := generate_file_content w.script_name w.now builddeps incomplete
        match args.output_file with
        | some path => (MainResult.wrote_file path args.append content, fs')
        | none => (MainResult.wrote_stdout content, fs')
      if args.only_write_on_update then
        let original := _parse_requirements_file fs' (args.output_file.getD [])
        let builddeps :=
          if args.append then pySetDiff (pySortedSet builddeps) original
          else builddeps
        if builddeps.isEmpty || (pySortedSet builddeps == original) then
          (MainResult.skipped_write, fs')
        else write_out builddeps
      else write_out builddeps

/-- Exit status of the whole process: `argparse.error` exits 2, a
`FindBuilddepsError` is caught in `__main__` and exits 1, any other
uncaught exception also terminates Python with status 1, and every other
path exits 0. -/
def script_exit_code (fs : FS) (w : World) (args : Args) : Nat :=
  match (script_main fs w args).1 with
  | MainResult.usage_error => 2
  | MainResult.raised _ => 1
  | _ => 0

/-- Sortedness in the strict lexicographic string order; such a list is the
canonical form of the set of its members. -/
def SortedStrs (l : List PyStr) : Prop :=
  List.Sorted (fun a b => lexLt a b = true) l

/-- Shape of a log line the spec describes for the Log Scanner: non-empty
leading whitespace, the literal marker, then a non-empty maximal run of
requirement characters, the token. -/
def collectingLineShape (line tok : PyStr) : Prop :=
  ∃ ws rest, line = ws ++ collectingMarker ++ tok ++ rest ∧ ws ≠ [] ∧
    (∀ c ∈ ws, pyIsSpace c = true) ∧ tok ≠ [] ∧ (∀ c ∈ tok, isReqChar c = true) ∧
    (∀ c cs, rest = c :: cs → isReqChar c = false)

/-- Shape of a requirement-file line the spec describes for the Requirement
File Reader: a non-empty maximal leading run of non-whitespace characters
other than `#` and `;`, the token. -/
def leadingTokenShape (line tok : PyStr) : Prop :=
  ∃ rest, line = tok ++ rest ∧ tok ≠ [] ∧ (∀ c ∈ tok, isPlainReqChar c = true) ∧
    (∀ c cs, rest = c :: cs → isPlainReqChar c = false)

/-- Direct top-level entries of a collection of requirement files, parsed
line by line the way `_parse_requirements_file` parses prior output. -/
def topLevelNames (inputs : List (List PyStr)) : List PyStr :=
  pySortedSet (inputs.foldr (fun f acc => f.filterMap matchRequirement ++ acc) [])

/-! ### Order properties of the string comparison -/

theorem lexLt_irrefl (a : PyStr) : lexLt a a = false := by
  induction a with
  | nil => rfl
  | cons c cs ih => simp [lexLt, charLt, ih]

theorem lexLt_trans : ∀ {a b c : PyStr}, lexLt a b = true → lexLt b c = true →
    lexLt a c = true
  | [], [], _, h₁, _ => by cases h₁
  | [], _ :: _, [], _, h₂ => by cases h₂
  | [], _ :: _, _ :: _, _, _ => rfl
  | _ :: _, [], _, h₁, _ => by cases h₁
  | _ :: _, _ :: _, [], _, h₂ => by cases h₂
  | x :: xs, y :: ys, z :: zs, h₁, h₂ => by
    simp only [lexLt, charLt, Bool.or_eq_true, Bool.and_eq_true, beq_iff_eq,
      decide_eq_true_eq] at h₁ h₂ ⊢
    rcases h₁ with h₁ | ⟨rfl, h₁⟩
    · rcases h₂ with h₂ | ⟨rfl, _⟩
      · exact Or.inl (lt_trans h₁ h₂)
      · exact Or.inl h₁
    · rcases h₂ with h₂ | ⟨rfl, h₂⟩
      · exact Or.inl h₂
      · exact Or.inr ⟨rfl, lexLt_trans h₁ h₂⟩

theorem lexLt_connex : ∀ {a b : PyStr}, a ≠ b → lexLt a b = true ∨ lexLt b a = true
  | [], [], h => absurd rfl h
  | [], _ :: _, _ => Or.inl rfl
  | _ :: _, [], _ => Or.inr rfl
  | x :: xs, y :: ys, h => by
    rcases lt_trichotomy x y with hlt | rfl | hgt
    · exact Or.inl (by simp [lexLt, charLt, hlt])
    · have hne : xs ≠ ys := fun hc => h (by rw [hc])
      rcases lexLt_connex hne with h' | h'
      · exact Or.inl (by simp [lexLt, charLt, h'])
      · exact Or.inr (by simp [lexLt, charLt, h'])
    · exact Or.inr (by simp [lexLt, charLt, hgt])

theorem lexLt_ne {a b : PyStr} (h : lexLt a b = true) : a ≠ b := by
  rintro rfl
  rw [lexLt_irrefl] at h
  cases h

theorem lexLt_asymm {a b : PyStr} (h : lexLt a b = true) : lexLt b a = false := by
  cases hb : lexLt b a with
  | false => rfl
  | true => exact absurd (lexLt_trans h hb) (by simp [lexLt_irrefl])

/-! ### The canonical sorted-set representation -/

theorem mem_insertSorted {x : PyStr} {l : List PyStr} {a : PyStr} :
    a ∈ insertSorted x l ↔ a = x ∨ a ∈ l := by
  induction l with
  | nil => simp [insertSorted]
  | cons y ys ih =>
    simp only [insertSorted]
    split
    · simp [List.mem_cons]
    · split
      · rename_i hxy
        rw [beq_iff_eq] at hxy
        subst hxy
        simp [List.mem_cons]
      · simp [List.mem_cons, ih]
        tauto

theorem sortedStrs_insertSorted {x : PyStr} {l : List PyStr} (h : SortedStrs l) :
    SortedStrs (insertSorted x l) := by
  induction l with
  | nil => simp [insertSorted, SortedStrs]
  | cons y ys ih =>
    obtain ⟨hy, hys⟩ := List.sorted_cons.mp h
    simp only [insertSorted]
    split
    · rename_i hlt
      refine List.sorted_cons.mpr ⟨?_, h⟩
      intro b hb
      rcases List.mem_cons.mp hb with rfl | hb
      · exact hlt
      · exact lexLt_trans hlt (hy b hb)
    · split
      · exact h
      · rename_i hnlt hne
        refine List.sorted_cons.mpr ⟨?_, ih hys⟩
        intro b hb
        rcases mem_insertSorted.mp hb with rfl | hb
        · have hby : b ≠ y := by simpa using hne
          rcases lexLt_connex hby with h' | h'
          · exact absurd h' hnlt
          · exact h'
        · exact hy b hb

theorem sortedStrs_pySortedSet (xs : List PyStr) : SortedStrs (pySortedSet xs) := by
  induction xs with
  | nil => simp [pySortedSet, SortedStrs]
  | cons x xs ih => exact sortedStrs_insertSorted ih

theorem mem_pySortedSet {xs : List PyStr} {a : PyStr} :
    a ∈ pySortedSet xs ↔ a ∈ xs := by
  induction xs with
  | nil => simp [pySortedSet]
  | cons x xs ih =>
    show a ∈ insertSorted x (pySortedSet xs) ↔ _
    rw [mem_insertSorted, ih]
    simp [List.mem_cons]

theorem sortedStrs_nodup {l : List PyStr} (h : SortedStrs l) : l.Nodup :=
  List.Pairwise.imp (fun hab => lexLt_ne hab) h

theorem sortedStrs_ext : ∀ {a b : List PyStr}, SortedStrs a → SortedStrs b →
    (∀ t, t ∈ a ↔ t ∈ b) → a = b
  | [], [], _, _, _ => rfl
  | [], y :: _, _, _, h => absurd ((h y).mpr (List.mem_cons_self y _)) (List.not_mem_nil y)
  | x :: _, [], _, _, h => absurd ((h x).mp (List.mem_cons_self x _)) (List.not_mem_nil x)
  | x :: as, y :: bs, ha, hb, h => by
    obtain ⟨hxall, has⟩ := List.sorted_cons.mp ha
    obtain ⟨hyall, hbs⟩ := List.sorted_cons.mp hb
    have hxy : x = y := by
      by_contra hne
      have hx : x ∈ y :: bs := (h x).mp (List.mem_cons_self x as)
      have hy : y ∈ x :: as := (h y).mpr (List.mem_cons_self y bs)
      rcases List.mem_cons.mp hx with h₁ | h₁
      · exact hne h₁
      rcases List.mem_cons.mp hy with h₂ | h₂
      · exact hne h₂.symm
      have hba := hyall x h₁
      have hab := hxall y h₂
      rw [lexLt_asymm hab] at hba
      cases hba
    subst hxy
    have htails : ∀ t, t ∈ as ↔ t ∈ bs := by
      intro t
      constructor
      · intro ht
        have hne : t ≠ x := fun hc => lexLt_ne (hxall t ht) hc.symm
        rcases List.mem_cons.mp ((h t).mp (List.mem_cons_of_mem x ht)) with h₁ | h₁
        · exact absurd h₁ hne
        · exact h₁
      · intro ht
        have hne : t ≠ x := fun hc => lexLt_ne (hyall t ht) hc.symm
        rcases List.mem_cons.mp ((h t).mpr (List.mem_cons_of_mem x ht)) with h₁ | h₁
        · exact absurd h₁ hne
        · exact h₁
    rw [sortedStrs_ext has hbs htails]

theorem pySortedSet_of_sorted : ∀ {l : List PyStr}, SortedStrs l → pySortedSet l = l
  | [], _ => rfl
  | x :: xs, h => by
    obtain ⟨hx, hxs⟩ := List.sorted_cons.mp h
    show insertSorted x (pySortedSet xs) = x :: xs
    rw [pySortedSet_of_sorted hxs]
    cases xs with
    | nil => rfl
    | cons y ys => simp [insertSorted, hx y (List.mem_cons_self y ys)]

theorem sortedStrs_pySetDiff {a : List PyStr} (b : List PyStr) (h : SortedStrs a) :
    SortedStrs (pySetDiff a b) :=
  List.Pairwise.sublist (List.filter_sublist a) h

theorem mem_pySetDiff {a b : List PyStr} {t : PyStr} :
    t ∈ pySetDiff a b ↔ t ∈ a ∧ t ∉ b := by
  simp [pySetDiff, List.mem_filter, List.contains, List.elem_iff]

/-! ### Properties of the pattern matching -/

theorem takeWhile_append_of_all {p : Char → Bool} : ∀ {l₁ : PyStr} (l₂ : PyStr),
    (∀ c ∈ l₁, p c = true) → (l₁ ++ l₂).takeWhile p = l₁ ++ l₂.takeWhile p
  | [], _, _ => rfl
  | c :: cs, l₂, h => by
    have hc := h c (List.mem_cons_self c cs)
    simp only [List.cons_append, List.takeWhile_cons, hc, if_true]
    rw [takeWhile_append_of_all l₂ (fun d hd => h d (List.mem_cons_of_mem c hd))]

theorem dropWhile_append_of_all {p : Char → Bool} : ∀ {l₁ : PyStr} (l₂ : PyStr),
    (∀ c ∈ l₁, p c = true) → (l₁ ++ l₂).dropWhile p = l₂.dropWhile p
  | [], _, _ => rfl
  | c :: cs, l₂, h => by
    have hc := h c (List.mem_cons_self c cs)
    simp only [List.cons_append, List.dropWhile_cons, hc, if_true]
    exact dropWhile_append_of_all l₂ (fun d hd => h d (List.mem_cons_of_mem c hd))

theorem dropWhile_eq_cons_head_false {p : Char → Bool} : ∀ {l : PyStr} {c : Char} {cs : PyStr},
    l.dropWhile p = c :: cs → p c = false
  | [], _, _, h => by cases h
  | d :: ds, c, cs, h => by
    rw [List.dropWhile_cons] at h
    split at h
    · exact dropWhile_eq_cons_head_false h
    · cases h
      rename_i hd
      exact Bool.not_eq_true _ ▸ Bool.of_not_eq_true hd

theorem takeWhile_eq_nil_of_head {p : Char → Bool} {l : PyStr}
    (h : ∀ c cs, l = c :: cs → p c = false) : l.takeWhile p = [] := by
  cases l with
  | nil => rfl
  | cons c cs => simp [List.takeWhile_cons, h c cs rfl]

theorem ne_nil_isEmpty_false {α : Type} {l : List α} (h : l ≠ []) : l.isEmpty = false := by
  cases l with
  | nil => exact absurd rfl h
  | cons c cs => rfl

/-- The `builddep_re` matcher succeeds with a token exactly on lines of the
shape the spec describes: non-empty leading whitespace, the literal
`Collecting ` marker, then the token as a non-empty maximal run of
non-whitespace, non-`;` characters. -/
theorem matchBuilddep_eq_some_iff {line tok : PyStr} :
    matchBuilddep line = some tok ↔ collectingLineShape line tok := by
  constructor
  · intro h
    simp only [matchBuilddep] at h
    split at h
    · cases h
    · split at h
      · split at h
        · cases h
        · rename_i hws hmk htk
          cases h
          refine ⟨line.takeWhile pyIsSpace,
            ((line.dropWhile pyIsSpace).drop collectingMarker.length).dropWhile isReqChar,
            ?_, ?_, ?_, ?_, ?_, ?_⟩
          · conv_lhs => rw [← List.takeWhile_append_dropWhile pyIsSpace line]
            rw [List.append_assoc, List.append_assoc]
            congr 1
            conv_lhs => rw [← List.take_append_drop collectingMarker.length
              (line.dropWhile pyIsSpace), hmk]
            congr 1
            exact (List.takeWhile_append_dropWhile isReqChar _).symm
          · intro hc
            rw [hc] at hws
            exact hws rfl
          · exact fun c hc => List.mem_takeWhile_imp hc
          · intro hc
            rw [hc] at htk
            exact htk rfl
          · exact fun c hc => List.mem_takeWhile_imp hc
          · exact fun c cs hc => dropWhile_eq_cons_head_false hc
      · cases h
  · rintro ⟨ws, rest, hline, hws, hwsall, htok, htokall, hrest⟩
    have hline' : line = ws ++ (collectingMarker ++ (tok ++ rest)) := by
      rw [hline, List.append_assoc, List.append_assoc]
    have hC : pyIsSpace 'C' = false := by decide
    have hmk : collectingMarker ++ (tok ++ rest) =
        'C' :: ("ollecting ".toList ++ (tok ++ rest)) := rfl
    have ht : line.takeWhile pyIsSpace = ws := by
      rw [hline', takeWhile_append_of_all _ hwsall, hmk, List.takeWhile_cons, hC]
      simp
    have hd : line.dropWhile pyIsSpace = collectingMarker ++ (tok ++ rest) := by
      rw [hline', dropWhile_append_of_all _ hwsall, hmk, List.dropWhile_cons, hC]
      simp
    simp only [matchBuilddep, ht, hd, ne_nil_isEmpty_false hws, Bool.false_eq_true,
      if_false, List.take_left, if_true]
    rw [List.drop_left, takeWhile_append_of_all _ htokall,
      takeWhile_eq_nil_of_head hrest, List.append_nil, ne_nil_isEmpty_false htok]
    simp

/-- The `requirement_re` matcher of the Requirement File Reader succeeds
with a token exactly on lines that start with a non-empty maximal run of
non-whitespace characters other than `#` and `;`. -/
theorem matchRequirement_eq_some_iff {line tok : PyStr} :
    matchRequirement line = some tok ↔ leadingTokenShape line tok := by
  constructor
  · intro h
    simp only [matchRequirement] at h
    split at h
    · cases h
    · rename_i htk
      cases h
      refine ⟨line.dropWhile isPlainReqChar, ?_, ?_, ?_, ?_⟩
      · exact (List.takeWhile_append_dropWhile isPlainReqChar line).symm
      · intro hc
        rw [hc] at htk
        exact htk rfl
      · exact fun c hc => List.mem_takeWhile_imp hc
      · exact fun c cs hc => dropWhile_eq_cons_head_false hc
  · rintro ⟨rest, hline, htok, htokall, hrest⟩
    have ht : line.takeWhile isPlainReqChar = tok := by
      rw [hline, takeWhile_append_of_all _ htokall, takeWhile_eq_nil_of_head hrest,
        List.append_nil]
    simp only [matchRequirement, ht, ne_nil_isEmpty_false htok]
    rfl

/-- Membership in the Log Scanner result is existence of a matching line. -/
theorem mem_filter_builddeps_lines {lines : List PyStr} {t : PyStr} :
    t ∈ filter_builddeps_lines lines ↔ ∃ line ∈ lines, matchBuilddep line = some t := by
  rw [filter_builddeps_lines, mem_pySortedSet]
  exact List.mem_filterMap

/-! ### Lines of a rendered text -/

theorem splitLines_ne_nil (s : PyStr) : splitLines s ≠ [] := by
  cases s with
  | nil => exact fun h => by cases h
  | cons c cs =>
    simp only [splitLines]
    split
    · exact fun h => by cases h
    · split <;> exact fun h => by cases h

theorem splitLines_no_nl : ∀ {l : PyStr}, '\n' ∉ l → splitLines l = [l]
  | [], _ => rfl
  | c :: cs, h => by
    have hc : c ≠ '\n' := fun hc => h (hc ▸ List.mem_cons_self c cs)
    have ih := splitLines_no_nl (fun hm => h (List.mem_cons_of_mem c hm))
    simp only [splitLines, ih]
    simp [hc]

theorem splitLines_append_cons_nl : ∀ {l : PyStr} (r : PyStr), '\n' ∉ l →
    splitLines (l ++ '\n' :: r) = l :: splitLines r
  | [], r, _ => by
    show splitLines ('\n' :: r) = [] :: splitLines r
    obtain ⟨x, xs, hx⟩ : ∃ x xs, splitLines r = x :: xs := by
      cases hs : splitLines r with
      | nil => exact absurd hs (splitLines_ne_nil r)
      | cons x xs => exact ⟨x, xs, rfl⟩
    simp [splitLines, hx]
  | c :: cs, r, h => by
    have hc : c ≠ '\n' := fun hc => h (hc ▸ List.mem_cons_self c cs)
    have ih := splitLines_append_cons_nl r (fun hm => h (List.mem_cons_of_mem c hm))
    show splitLines (c :: (cs ++ '\n' :: r)) = (c :: cs) :: splitLines r
    simp only [splitLines, ih]
    simp [hc]

theorem splitLines_joinLines : ∀ {ls : List PyStr}, ls ≠ [] → (∀ l ∈ ls, '\n' ∉ l) →
    splitLines (joinLines ls) = ls
  | [], h, _ => absurd rfl h
  | [l], _, h => splitLines_no_nl (h l (List.mem_cons_self l []))
  | l :: l' :: ls, _, h => by
    show splitLines (l ++ '\n' :: joinLines (l' :: ls)) = _
    rw [splitLines_append_cons_nl _ (h l (List.mem_cons_self l _))]
    rw [splitLines_joinLines (fun hc => by cases hc)
      (fun x hx => h x (List.mem_cons_of_mem l hx))]

theorem splitLines_concat_nl : ∀ (s : PyStr), splitLines (s ++ ['\n']) = splitLines s ++ [[]]
  | [] => rfl
  | c :: cs => by
    obtain ⟨x, xs, hx⟩ : ∃ x xs, splitLines cs = x :: xs := by
      cases hs : splitLines cs with
      | nil => exact absurd hs (splitLines_ne_nil cs)
      | cons x xs => exact ⟨x, xs, rfl⟩
    show splitLines (c :: (cs ++ ['\n'])) = _
    simp only [splitLines, splitLines_concat_nl cs, hx]
    by_cases hc : c = '\n' <;> simp [hc]

/-! ### Filesystem facts -/

theorem fsRead_fsWrite_self (fs : FS) (p : PyStr) (v : List PyStr) :
    fsRead (fsWrite fs p v) p = some v := by
  simp [fsRead, fsWrite, List.find?_cons_of_pos]

theorem startsWith_refl (d : PyStr) : startsWith d d = true := by
  simp [startsWith, List.take_length]

theorem startsWith_append (d x : PyStr) : startsWith d (d ++ x) = true := by
  simp [startsWith, List.take_left]

theorem fsRead_fsRmtree_under {fs : FS} {d q : PyStr} (h : startsWith d q = true) :
    fsRead (fsRmtree fs d) q = none := by
  simp only [fsRead, fsRmtree]
  have hnone : (fs.files.filter (fun e => !(startsWith d e.1))).find?
      (fun e => e.1 == q) = none := by
    rw [List.find?_eq_none]
    intro e he hbe
    rw [beq_iff_eq] at hbe
    have := (List.mem_filter.mp he).2
    rw [hbe, h] at this
    cases this
  rw [hnone]
  rfl

theorem not_mem_dirs_fsRmtree_self (fs : FS) (d : PyStr) : d ∉ (fsRmtree fs d).dirs := by
  intro h
  have := (List.mem_filter.mp h).2
  rw [startsWith_refl] at this
  cases this

/-! ### Evaluation of the discovery orchestrator -/

theorem find_builddeps_run_ok {fs : FS} {tmpdir : PyStr} {pw : PipWorld}
    {files : List PyStr} {nc ie : Bool} (h : pw.ok = true) :
    find_builddeps fs tmpdir pw files nc ie =
      (Except.ok (filter_builddeps_lines pw.output, false),
       fsRmtree (fsWrite (fsMkdtemp fs tmpdir) (pip_output_file tmpdir) pw.output) tmpdir) := by
  simp [find_builddeps, _pip_download, h, _filter_builddeps, fsRead_fsWrite_self]

theorem find_builddeps_run_tolerated {fs : FS} {tmpdir : PyStr} {pw : PipWorld}
    {files : List PyStr} {nc ie : Bool} (h : pw.ok = false) (hie : ie = true) :
    find_builddeps fs tmpdir pw files nc ie =
      (Except.ok (filter_builddeps_lines pw.output, true),
       fsWrite (fsMkdtemp fs tmpdir) (pip_output_file tmpdir) pw.output) := by
  simp [find_builddeps, _pip_download, h, hie, _filter_builddeps, fsRead_fsWrite_self]

theorem find_builddeps_run_raise {fs : FS} {tmpdir : PyStr} {pw : PipWorld}
    {files : List PyStr} {nc ie : Bool} (h : pw.ok = false) (hie : ie = false) :
    find_builddeps fs tmpdir pw files nc ie =
      (Except.error (PyExc.findBuilddepsError (pipFailMsg tmpdir)),
       fsWrite (fsMkdtemp fs tmpdir) (pip_output_file tmpdir) pw.output) := by
  simp [find_builddeps, _pip_download, h, hie]

theorem sortedStrs_parse_requirements_file (fs : FS) (path : PyStr) :
    SortedStrs (_parse_requirements_file fs path) := by
  rw [_parse_requirements_file]
  cases fsRead fs path with
  | none => simp [SortedStrs]
  | some lines => exact sortedStrs_pySortedSet _

theorem nil_of_no_mem {l : List PyStr} (h : ∀ t, t ∉ l) : l = [] := by
  cases l with
  | nil => rfl
  | cons x xs => exact absurd (List.mem_cons_self x xs) (h x)

/-! ### The claims -/

/-- Claim C2: the Log Scanner returns exactly the lexicographically sorted,
duplicate-free set of tokens extracted from lines with non-empty leading
whitespace, the literal `Collecting ` marker and a maximal run of
non-whitespace non-`;` characters; non-matching lines contribute nothing, a
log with no matching line yields the empty set, and the sample line
`  Collecting foo==1.2; python_version>=3.8` (with the qualifier quoted in the spec) yields `foo==1.2`. -/
theorem C2_log_scanner (lines : List PyStr) :
    SortedStrs (filter_builddeps_lines lines) ∧
    (filter_builddeps_lines lines).Nodup ∧
    (∀ t, t ∈ filter_builddeps_lines lines ↔ ∃ line ∈ lines, collectingLineShape line t) ∧
    ((∀ line ∈ lines, ∀ t, ¬ collectingLineShape line t) → filter_builddeps_lines lines = []) ∧
    matchBuilddep "  Collecting foo==1.2; python_version>=\x273.8\x27".toList =
      some "foo==1.2".toList := by
  refine ⟨sortedStrs_pySortedSet _, sortedStrs_nodup (sortedStrs_pySortedSet _), ?_, ?_, by decide⟩
  · intro t
    rw [mem_filter_builddeps_lines]
    constructor
    · rintro ⟨line, hl, hm⟩
      exact ⟨line, hl, matchBuilddep_eq_some_iff.mp hm⟩
    · rintro ⟨line, hl, hs⟩
      exact ⟨line, hl, matchBuilddep_eq_some_iff.mpr hs⟩
  · intro h
    refine nil_of_no_mem (fun t ht => ?_)
    obtain ⟨line, hl, hm⟩ := mem_filter_builddeps_lines.mp ht
    exact h line hl t (matchBuilddep_eq_some_iff.mp hm)

/-- Witness for C2 at a concrete log with zero matching lines. -/
theorem C2_witness :
    filter_builddeps_lines ["noise".toList, "Collecting x".toList] = [] := by
  apply (C2_log_scanner _).2.2.2.1
  intro line hl t hshape
  have hm := matchBuilddep_eq_some_iff.mpr hshape
  rcases List.mem_cons.mp hl with rfl | hl
  · rw [(by decide : matchBuilddep "noise".toList = none)] at hm
    cases hm
  · rcases List.mem_cons.mp hl with rfl | hl
    · rw [(by decide : matchBuilddep "Collecting x".toList = none)] at hm
      cases hm
    · cases hl

/-- Claim C8: the Requirement File Reader returns the set of leading tokens
of the lines of the file (maximal leading runs of non-whitespace, non-`#`,
non-`;` characters), and on a non-existent path it returns the empty set
instead of raising. -/
theorem C8_requirements_reader (fs : FS) (path : PyStr) :
    (fsRead fs path = none → _parse_requirements_file fs path = []) ∧
    (∀ lines, fsRead fs path = some lines →
      ∀ t, t ∈ _parse_requirements_file fs path ↔ ∃ line ∈ lines, leadingTokenShape line t) := by
  constructor
  · intro h
    simp [_parse_requirements_file, h]
  · intro lines h t
    simp only [_parse_requirements_file, h]
    rw [mem_pySortedSet, List.mem_filterMap]
    constructor
    · rintro ⟨line, hl, hm⟩
      exact ⟨line, hl, matchRequirement_eq_some_iff.mp hm⟩
    · rintro ⟨line, hl, hs⟩
      exact ⟨line, hl, matchRequirement_eq_some_iff.mpr hs⟩

/-- Witness for C8 on a filesystem without the requested file and on one
with a file holding one commented and one plain line. -/
theorem C8_witness :
    _parse_requirements_file ⟨[], []⟩ "missing.txt".toList = [] ∧
    ("foo==1.0".toList ∈ _parse_requirements_file
      ⟨[("out".toList, ["foo==1.0  # pinned".toList, "# comment".toList])], []⟩ "out".toList) := by
  constructor
  · exact (C8_requirements_reader ⟨[], []⟩ "missing.txt".toList).1 rfl
  · refine ((C8_requirements_reader
      ⟨[("out".toList, ["foo==1.0  # pinned".toList, "# comment".toList])], []⟩ "out".toList).2
      ["foo==1.0  # pinned".toList, "# comment".toList] (by decide) "foo==1.0".toList).mpr ?_
    exact ⟨"foo==1.0  # pinned".toList, List.mem_cons_self _ _,
      matchRequirement_eq_some_iff.mp (by decide)⟩

/-- Claim C7: under the documented logging contract of the downloader, that a
direct top-level entry of an input requirement file is never logged as an
indented `Collecting` line, the Build-Dependency Set contains no direct
top-level entry of any input requirement file. -/
theorem C7_no_toplevel (inputs : List (List PyStr)) (logLines : List PyStr)
    (hsignal : ∀ line ∈ logLines, ∀ t, t ∈ topLevelNames inputs →
      ¬ collectingLineShape line t) :
    ∀ t ∈ filter_builddeps_lines logLines, t ∉ topLevelNames inputs := by
  intro t ht htop
  obtain ⟨line, hl, hm⟩ := mem_filter_builddeps_lines.mp ht
  exact hsignal line hl t htop (matchBuilddep_eq_some_iff.mp hm)

/-- Witness for C7: one input file listing `requests==2.0`, a log in which
the top-level entry appears unindented and one build dependency appears
indented; the discovered build dependency is not a top-level entry. -/
theorem C7_witness :
    "certifi==2023.0".toList ∈ filter_builddeps_lines
      ["Collecting requests==2.0".toList, "  Collecting certifi==2023.0".toList] ∧
    "certifi==2023.0".toList ∉ topLevelNames [["requests==2.0".toList]] := by
  refine ⟨by decide, ?_⟩
  refine C7_no_toplevel [["requests==2.0".toList]]
    ["Collecting requests==2.0".toList, "  Collecting certifi==2023.0".toList]
    ?_ _ (by decide)
  intro line hl t htop hshape
  have hm := matchBuilddep_eq_some_iff.mpr hshape
  have htn : topLevelNames [["requests==2.0".toList]] = ["requests==2.0".toList] := by decide
  rw [htn] at htop
  have ht' : t = "requests==2.0".toList := by simpa using htop
  subst ht'
  rcases List.mem_cons.mp hl with rfl | hl
  · rw [(by decide : matchBuilddep "Collecting requests==2.0".toList = none)] at hm
    cases hm
  · rcases List.mem_cons.mp hl with rfl | hl
    · rw [(by decide : matchBuilddep "  Collecting certifi==2023.0".toList =
        some "certifi==2023.0".toList)] at hm
      exact absurd (Option.some.inj hm) (by decide)
    · cases hl

/-- Claim C6: for every discovery run that returns, the scratch directory
still exists afterwards iff the run is flagged incomplete; on a tolerated
failure the captured log stays readable inside it, and on a fully
successful run the scratch directory and the captured log are gone. -/
theorem C6_scratch_lifecycle (fs : FS) (tmpdir : PyStr) (pw : PipWorld)
    (files : List PyStr) (nc ie : Bool) (bd : List PyStr) (p : Bool) (fs₂ : FS)
    (h : find_builddeps fs tmpdir pw files nc ie = (Except.ok (bd, p), fs₂)) :
    (tmpdir ∈ fs₂.dirs ↔ p = true) ∧
    (p = true → fsRead fs₂ (pip_output_file tmpdir) = some pw.output) ∧
    (p = false → fsRead fs₂ (pip_output_file tmpdir) = none) := by
  have hunder : startsWith tmpdir (pip_output_file tmpdir) = true := by
    rw [pip_output_file]
    exact startsWith_append _ _
  cases hok : pw.ok with
  | true =>
    rw [find_builddeps_run_ok hok] at h
    injection h with h1 h2
    injection h1 with h1
    injection h1 with hbd hp
    subst h2
    subst hp
    refine ⟨?_, ?_, ?_⟩
    · constructor
      · intro hmem
        exact absurd hmem (not_mem_dirs_fsRmtree_self _ _)
      · intro hc
        cases hc
    · intro hc
      cases hc
    · intro _
      exact fsRead_fsRmtree_under hunder
  | false =>
    cases hie : ie with
    | false =>
      rw [find_builddeps_run_raise hok hie] at h
      injection h with h1 h2
      cases h1
    | true =>
      rw [find_builddeps_run_tolerated hok hie] at h
      injection h with h1 h2
      injection h1 with h1
      injection h1 with hbd hp
      subst h2
      subst hp
      refine ⟨?_, ?_, ?_⟩
      · constructor
        · intro _
          rfl
        · intro _
          exact List.mem_cons_self _ _
      · intro _
        exact fsRead_fsWrite_self _ _ _
      · intro hc
        cases hc

/-- Witness for C6 at a fully successful concrete run: the scratch
directory and the captured log are gone afterwards. -/
theorem C6_witness :
    ("t".toList ∈ (FS.mk [] []).dirs ↔ false = true) ∧
    (false = true → fsRead ⟨[], []⟩ (pip_output_file "t".toList) = some []) ∧
    (false = false → fsRead ⟨[], []⟩ (pip_output_file "t".toList) = none) :=
  C6_scratch_lifecycle ⟨[], []⟩ "t".toList ⟨true, []⟩ [] false false [] false ⟨[], []⟩
    (by decide)

/-- Claim C3: a failing downloader raises `FindBuilddepsError` carrying the
captured-log path when failures are not tolerated, and the whole process
then exits non-zero; with tolerance enabled the run returns with the
partial flag set, and the returned partial flag is true exactly when the
downloader failed and the caller tolerated it. -/
theorem C3_download_failure (fs : FS) (tmpdir : PyStr) (pw : PipWorld)
    (files : List PyStr) (nc : Bool) :
    (pw.ok = false →
      (find_builddeps fs tmpdir pw files nc false).1 =
        Except.error (PyExc.findBuilddepsError
          ("Pip download failed, see ".toList ++ pip_output_file tmpdir ++
           " for more info".toList)) ∧
      (find_builddeps fs tmpdir pw files nc true).1 =
        Except.ok (filter_builddeps_lines pw.output, true)) ∧
    (∀ ie bd p fs₂, find_builddeps fs tmpdir pw files nc ie = (Except.ok (bd, p), fs₂) →
      (p = true ↔ pw.ok = false ∧ ie = true)) ∧
    (∀ (w : World) (args : Args), w.pip.ok = false → args.ignore_errors = false →
      script_exit_code fs w args ≠ 0) := by
  refine ⟨?_, ?_, ?_⟩
  · intro hok
    constructor
    · rw [find_builddeps_run_raise hok rfl]
      rfl
    · rw [find_builddeps_run_tolerated hok rfl]
  · intro ie bd p fs₂ h
    cases hok : pw.ok with
    | true =>
      rw [find_builddeps_run_ok hok] at h
      injection h with h1 h2
      injection h1 with h1
      injection h1 with hbd hp
      subst hp
      simp
    | false =>
      cases hie : ie with
      | false =>
        rw [find_builddeps_run_raise hok hie] at h
        injection h with h1 h2
        cases h1
      | true =>
        rw [find_builddeps_run_tolerated hok hie] at h
        injection h with h1 h2
        injection h1 with h1
        injection h1 with hbd hp
        subst hp
        simp
  · intro w args hok hie
    by_cases hsan : _sanity_check_args args = true
    · simp [script_exit_code, script_main, hsan]
    · simp [script_exit_code, script_main, hsan, find_builddeps_run_raise hok hie]

/-- Witness for C3 at a concrete failing run, untolerated and tolerated. -/
theorem C3_witness :
    (find_builddeps ⟨[], []⟩ "t".toList ⟨false, []⟩ [] false false).1 =
      Except.error (PyExc.findBuilddepsError
        ("Pip download failed, see ".toList ++ pip_output_file "t".toList ++
         " for more info".toList)) ∧
    (find_builddeps ⟨[], []⟩ "t".toList ⟨false, []⟩ [] false true).1 =
      Except.ok (filter_builddeps_lines [], true) ∧
    script_exit_code ⟨[], []⟩ ⟨[], [], "t".toList, ⟨false, []⟩⟩ ⟨[], none, false, false, false, false⟩ ≠ 0 := by
  refine ⟨((C3_download_failure ⟨[], []⟩ "t".toList ⟨false, []⟩ [] false).1 rfl).1,
    ((C3_download_failure ⟨[], []⟩ "t".toList ⟨false, []⟩ [] false).1 rfl).2,
    (C3_download_failure ⟨[], []⟩ "t".toList ⟨false, []⟩ [] false).2.2
      ⟨[], [], "t".toList, ⟨false, []⟩⟩ ⟨[], none, false, false, false, false⟩ rfl rfl⟩

/-- Claim C10: the capture file is created before the downloader runs, so a
discovery run never fails with a missing capture file, and with tolerance
enabled a failing run still scans the (possibly empty) capture file. -/
theorem C10_capture_file (fs : FS) (tmpdir : PyStr) (pw : PipWorld)
    (files : List PyStr) (nc ie : Bool) :
    (∀ p, (find_builddeps fs tmpdir pw files nc ie).1 ≠
      Except.error (PyExc.fileNotFoundError p)) ∧
    fsRead (_pip_download (fsMkdtemp fs tmpdir) pw files (pip_output_file tmpdir)
      tmpdir nc).1 (pip_output_file tmpdir) = some pw.output ∧
    (pw.ok = false → ie = true →
      (find_builddeps fs tmpdir pw files nc ie).1 =
        Except.ok (filter_builddeps_lines pw.output, true)) := by
  refine ⟨?_, fsRead_fsWrite_self _ _ _, ?_⟩
  · intro p
    cases hok : pw.ok with
    | true =>
      rw [find_builddeps_run_ok hok]
      intro hc
      cases hc
    | false =>
      cases hie : ie with
      | false =>
        rw [find_builddeps_run_raise hok rfl]
        intro hc
        injection hc with hc
        cases hc
      | true =>
        rw [find_builddeps_run_tolerated hok rfl]
        intro hc
        cases hc
  · intro hok hie
    rw [find_builddeps_run_tolerated hok hie]

/-- Witness for C10: a downloader failing immediately with an empty capture
file, under tolerance, still yields a scanned (empty) result. -/
theorem C10_witness :
    (find_builddeps ⟨[], []⟩ "t".toList ⟨false, []⟩ [] false true).1 =
      Except.ok (filter_builddeps_lines [], true) ∧
    (find_builddeps ⟨[], []⟩ "t".toList ⟨false, []⟩ [] false true).1 ≠
      Except.error (PyExc.fileNotFoundError (pip_output_file "t".toList)) :=
  ⟨(C10_capture_file ⟨[], []⟩ "t".toList ⟨false, []⟩ [] false true).2.2 rfl rfl,
   (C10_capture_file ⟨[], []⟩ "t".toList ⟨false, []⟩ [] false true).1 _⟩

/-- Claim C5: with `only_write_on_update` set and no output destination the
run stops with a usage error, the filesystem is untouched (no scratch
workspace is created, no downloader runs), and the process exit status is
the `argparse` usage-error status 2. -/
theorem C5_usage_error (fs : FS) (w : World) (files : List PyStr) (app nc ie : Bool) :
    script_main fs w ⟨files, none, app, nc, ie, true⟩ = (MainResult.usage_error, fs) ∧
    script_exit_code fs w ⟨files, none, app, nc, ie, true⟩ = 2 := by
  constructor
  · simp [script_main, _sanity_check_args]
  · simp [script_exit_code, script_main, _sanity_check_args]

theorem skip_cond_append_iff (F O : List PyStr) (hF : SortedStrs F)
    (hFc : pySortedSet F = F) :
    (((pySetDiff (pySortedSet F) O).isEmpty
      || (pySortedSet (pySetDiff (pySortedSet F) O) == O)) = true) ↔
    pySetDiff (pySortedSet F) O = [] := by
  rw [hFc]
  have hB : SortedStrs (pySetDiff F O) := sortedStrs_pySetDiff O hF
  rw [pySortedSet_of_sorted hB]
  simp only [Bool.or_eq_true, List.isEmpty_iff, beq_iff_eq]
  constructor
  · rintro (hemp | hbeq)
    · exact hemp
    · have hOnil : O = [] :=
        nil_of_no_mem (fun t ht => (mem_pySetDiff.mp (by rw [hbeq]; exact ht)).2 ht)
      rw [hbeq]
      exact hOnil
  · exact fun hemp => Or.inl hemp

theorem skip_cond_plain_iff (F O : List PyStr) (hF : SortedStrs F) (hO : SortedStrs O)
    (hFc : pySortedSet F = F) :
    ((F.isEmpty || (pySortedSet F == O)) = true) ↔ (F = [] ∨ ∀ t, t ∈ F ↔ t ∈ O) := by
  rw [hFc]
  simp only [Bool.or_eq_true, List.isEmpty_iff, beq_iff_eq]
  constructor
  · rintro (hemp | hFO)
    · exact Or.inl hemp
    · exact Or.inr (fun t => by rw [hFO])
  · rintro (hemp | hmem)
    · exact Or.inl hemp
    · exact Or.inr (sortedStrs_ext hF hO hmem)

/-- Claim C4: with `only_write_on_update` set the write is skipped exactly
when the effective output set is empty or, in non-append mode only, when it
is set-equal to the prior dependency set; in every other case the write
occurs. -/
theorem C4_change_gating (fs : FS) (w : World) (files : List PyStr)
    (nc ie app : Bool) (path : PyStr) (r : MainResult) (fs₂ : FS)
    (hok : w.pip.ok = true)
    (h : script_main fs w ⟨files, some path, app, nc, ie, true⟩ = (r, fs₂)) :
    (r = MainResult.skipped_write ↔
      ((if app then pySetDiff (pySortedSet (filter_builddeps_lines w.pip.output))
          (_parse_requirements_file fs₂ path)
        else filter_builddeps_lines w.pip.output) = [] ∨
       (app = false ∧ ∀ t,
         (t ∈ (if app then pySetDiff (pySortedSet (filter_builddeps_lines w.pip.output))
             (_parse_requirements_file fs₂ path)
           else filter_builddeps_lines w.pip.output)) ↔
         t ∈ _parse_requirements_file fs₂ path))) ∧
    (r ≠ MainResult.skipped_write →
      r = MainResult.wrote_file path app
        (generate_file_content w.script_name w.now
          (if app then pySetDiff (pySortedSet (filter_builddeps_lines w.pip.output))
            (_parse_requirements_file fs₂ path)
          else filter_builddeps_lines w.pip.output) false)) := by
  have hcanon : pySortedSet (filter_builddeps_lines w.pip.output) =
      filter_builddeps_lines w.pip.output :=
    pySortedSet_of_sorted (sortedStrs_pySortedSet _)
  cases app with
  | true =>
    simp only [script_main, _sanity_check_args, find_builddeps_run_ok hok,
      Option.isNone_some, Bool.and_false, Bool.false_eq_true, if_false,
      Option.getD_some, if_true] at h
    split at h
    · rename_i hcond
      injection h with h1 h2
      subst h2
      subst h1
      refine ⟨⟨fun _ => Or.inl ?_, fun _ => rfl⟩, fun hne => absurd rfl hne⟩
      simp only [if_true]
      exact (skip_cond_append_iff _ _ (sortedStrs_pySortedSet _) hcanon).mp hcond
    · rename_i hcond
      injection h with h1 h2
      subst h2
      subst h1
      refine ⟨⟨nofun, fun hrhs => ?_⟩, fun _ => rfl⟩
      exfalso
      rcases hrhs with hemp | ⟨hc, _⟩
      · exact hcond ((skip_cond_append_iff _ _ (sortedStrs_pySortedSet _) hcanon).mpr
          (by simpa using hemp))
      · cases hc
  | false =>
    simp only [script_main, _sanity_check_args, find_builddeps_run_ok hok,
      Option.isNone_some, Bool.and_false, Bool.false_eq_true, if_false,
      Option.getD_some, if_true] at h
    split at h
    · rename_i hcond
      injection h with h1 h2
      subst h2
      subst h1
      refine ⟨⟨fun _ => ?_, fun _ => rfl⟩, fun hne => absurd rfl hne⟩
      have hiff := (skip_cond_plain_iff _ (_parse_requirements_file _ path)
        (sortedStrs_pySortedSet _) (sortedStrs_parse_requirements_file _ _) hcanon).mp hcond
      rcases hiff with hemp | hmem
      · exact Or.inl (by simpa using hemp)
      · exact Or.inr ⟨rfl, by simpa using hmem⟩
    · rename_i hcond
      injection h with h1 h2
      subst h2
      subst h1
      refine ⟨⟨nofun, fun hrhs => ?_⟩, fun _ => rfl⟩
      exfalso
      refine hcond ((skip_cond_plain_iff _ (_parse_requirements_file _ path)
        (sortedStrs_pySortedSet _) (sortedStrs_parse_requirements_file _ _) hcanon).mpr ?_)
      rcases hrhs with hemp | ⟨-, hmem⟩
      · exact Or.inl (by simpa using hemp)
      · exact Or.inr (by simpa using hmem)

/-- Witness for C4 at the example from the spec: prior set of a and b, freshly
discovered set of a and b, `append = false`, `only_write_on_update = true`:
the write is skipped. -/
theorem C4_witness :
    (script_main ⟨[("out".toList, ["a".toList, "b".toList])], []⟩
      ⟨"pfb".toList, "now".toList, "/tmp/t".toList,
       ⟨true, ["  Collecting a".toList, "  Collecting b".toList]⟩⟩
      ⟨["req.txt".toList], some "out".toList, false, false, false, true⟩).1 =
      MainResult.skipped_write := by
  refine ((C4_change_gating ⟨[("out".toList, ["a".toList, "b".toList])], []⟩
    ⟨"pfb".toList, "now".toList, "/tmp/t".toList,
     ⟨true, ["  Collecting a".toList, "  Collecting b".toList]⟩⟩
    ["req.txt".toList] false false false "out".toList _ _ rfl rfl).1).mpr ?_
  refine Or.inr ⟨rfl, fun t => ?_⟩
  rw [(by decide : filter_builddeps_lines
      ["  Collecting a".toList, "  Collecting b".toList] =
    _parse_requirements_file (script_main ⟨[("out".toList, ["a".toList, "b".toList])], []⟩
      ⟨"pfb".toList, "now".toList, "/tmp/t".toList,
       ⟨true, ["  Collecting a".toList, "  Collecting b".toList]⟩⟩
      ⟨["req.txt".toList], some "out".toList, false, false, false, true⟩).2 "out".toList)]
  exact Iff.rfl

/-- Counterexample for C1 as stated: with `append = true` but
`only_write_on_update = false`, prior set of a and b and fresh set of a
and c, the script appends the full fresh set (a and c) to the file, not
the difference (c alone) that the claim demands for every append-mode run. -/
theorem C1_counterexample :
    (script_main ⟨[("out".toList, ["a".toList, "b".toList])], []⟩
      ⟨"pfb".toList, "now".toList, "/tmp/t".toList,
       ⟨true, ["  Collecting a".toList, "  Collecting c".toList]⟩⟩
      ⟨["req.txt".toList], some "out".toList, true, false, false, false⟩).1 =
      MainResult.wrote_file "out".toList true "# Generated by pfb on now\na\nc".toList ∧
    filter_builddeps_lines ["  Collecting a".toList, "  Collecting c".toList] =
      ["a".toList, "c".toList] ∧
    _parse_requirements_file ⟨[("out".toList, ["a".toList, "b".toList])], []⟩ "out".toList =
      ["a".toList, "b".toList] ∧
    pySetDiff (pySortedSet ["a".toList, "c".toList]) ["a".toList, "b".toList] = ["c".toList] ∧
    "# Generated by pfb on now\na\nc".toList ≠
      generate_file_content "pfb".toList "now".toList ["c".toList] false := by decide

/-- Claim C1 (amended): when `append` and `only_write_on_update` are both
set, every run that writes writes exactly the Build-Dependency Set minus
the Prior Dependency Set; without `only_write_on_update` the subtraction
does not happen. -/
theorem C1_append_with_gating (fs : FS) (w : World) (files : List PyStr)
    (nc ie : Bool) (path : PyStr) (r : MainResult) (fs₂ : FS)
    (hok : w.pip.ok = true)
    (h : script_main fs w ⟨files, some path, true, nc, ie, true⟩ = (r, fs₂)) :
    r = MainResult.skipped_write ∨
    r = MainResult.wrote_file path true
      (generate_file_content w.script_name w.now
        (pySetDiff (pySortedSet (filter_builddeps_lines w.pip.output))
          (_parse_requirements_file fs₂ path)) false) := by
  simp only [script_main, _sanity_check_args, find_builddeps_run_ok hok,
    Option.isNone_some, Bool.and_false, Bool.false_eq_true, if_false,
    Option.getD_some, if_true] at h
  split at h
  · injection h with h1 h2
    subst h2
    subst h1
    exact Or.inl rfl
  · injection h with h1 h2
    subst h2
    subst h1
    exact Or.inr rfl

/-- Witness for the amended C1 at the example from the spec: prior set of a
and b, fresh set of a and c, `append = true`, `only_write_on_update = true`: the
written body is exactly `c`. -/
theorem C1_witness :
    (script_main ⟨[("out".toList, ["a".toList, "b".toList])], []⟩
      ⟨"pfb".toList, "now".toList, "/tmp/t".toList,
       ⟨true, ["  Collecting a".toList, "  Collecting c".toList]⟩⟩
      ⟨["req.txt".toList], some "out".toList, true, false, false, true⟩).1 =
      MainResult.wrote_file "out".toList true
        (generate_file_content "pfb".toList "now".toList
          (pySetDiff (pySortedSet (filter_builddeps_lines
              ["  Collecting a".toList, "  Collecting c".toList]))
            (_parse_requirements_file
              (script_main ⟨[("out".toList, ["a".toList, "b".toList])], []⟩
                ⟨"pfb".toList, "now".toList, "/tmp/t".toList,
                 ⟨true, ["  Collecting a".toList, "  Collecting c".toList]⟩⟩
                ⟨["req.txt".toList], some "out".toList, true, false, false, true⟩).2
              "out".toList)) false) ∧
    generate_file_content "pfb".toList "now".toList ["c".toList] false =
      "# Generated by pfb on now\nc".toList := by
  constructor
  · exact (C1_append_with_gating ⟨[("out".toList, ["a".toList, "b".toList])], []⟩
      ⟨"pfb".toList, "now".toList, "/tmp/t".toList,
       ⟨true, ["  Collecting a".toList, "  Collecting c".toList]⟩⟩
      ["req.txt".toList] false false "out".toList _ _ rfl rfl).resolve_left (by decide)
  · decide

theorem gfc_eq_joinLines (sn now : PyStr) (bd : List PyStr) (p : Bool) :
    generate_file_content sn now bd p = joinLines
      (("# Generated by ".toList ++ sn ++ " on ".toList ++ now) ::
        ((if bd = [] then ["# <no build dependencies found>".toList] else bd) ++
         (if p then ["# <pip download failed, output may be incomplete!>".toList] else []))) := by
  rw [generate_file_content]
  by_cases hb : bd = []
  · subst hb
    cases p <;> simp
  · have hbe : bd.isEmpty = false := ne_nil_isEmpty_false hb
    cases p <;> simp [hbe, hb]

/-- Claim C9: the output of the Report Formatter consists of exactly one header
comment line with the generator name and timestamp, then the dependency
lines in the given order (or one placeholder comment line when there are
none), then one trailing warning comment line exactly when the result is
partial; the lines are newline-joined and no trailing newline is added. -/
theorem C9_report_formatter (sn now : PyStr) (bd : List PyStr) (p : Bool)
    (hsn : '\n' ∉ sn) (hnow : '\n' ∉ now)
    (hbd : ∀ d ∈ bd, d ≠ [] ∧ '\n' ∉ d) :
    splitLines (generate_file_content sn now bd p) =
      ("# Generated by ".toList ++ sn ++ " on ".toList ++ now) ::
        ((if bd = [] then ["# <no build dependencies found>".toList] else bd) ++
         (if p then ["# <pip download failed, output may be incomplete!>".toList] else [])) ∧
    ∀ s, generate_file_content sn now bd p ≠ s ++ ['\n'] := by
  have hnl : ∀ l ∈ (("# Generated by ".toList ++ sn ++ " on ".toList ++ now) ::
      ((if bd = [] then ["# <no build dependencies found>".toList] else bd) ++
       (if p then ["# <pip download failed, output may be incomplete!>".toList] else []))),
      '\n' ∉ l := by
    intro l hl
    rcases List.mem_cons.mp hl with rfl | hl
    · intro hc
      simp only [List.mem_append] at hc
      rcases hc with ((hc | hc) | hc) | hc
      · exact absurd hc (by decide)
      · exact hsn hc
      · exact absurd hc (by decide)
      · exact hnow hc
    · rcases List.mem_append.mp hl with hl | hl
      · by_cases hb : bd = []
        · rw [if_pos hb] at hl
          have hleq : l = "# <no build dependencies found>".toList := by simpa using hl
          subst hleq
          decide
        · rw [if_neg hb] at hl
          exact (hbd l hl).2
      · cases p with
        | true =>
          have hleq : l = "# <pip download failed, output may be incomplete!>".toList := by
            simpa using hl
          subst hleq
          decide
        | false => simp at hl
  have hne : ∀ l ∈ (("# Generated by ".toList ++ sn ++ " on ".toList ++ now) ::
      ((if bd = [] then ["# <no build dependencies found>".toList] else bd) ++
       (if p then ["# <pip download failed, output may be incomplete!>".toList] else []))),
      l ≠ [] := by
    intro l hl
    rcases List.mem_cons.mp hl with rfl | hl
    · intro hc
      rw [List.append_eq_nil, List.append_eq_nil, List.append_eq_nil] at hc
      exact absurd hc.1.1.1 (by decide)
    · rcases List.mem_append.mp hl with hl | hl
      · by_cases hb : bd = []
        · rw [if_pos hb] at hl
          have hleq : l = "# <no build dependencies found>".toList := by simpa using hl
          subst hleq
          decide
        · rw [if_neg hb] at hl
          exact (hbd l hl).1
      · cases p with
        | true =>
          have hleq : l = "# <pip download failed, output may be incomplete!>".toList := by
            simpa using hl
          subst hleq
          decide
        | false => simp at hl
  have hsplit : splitLines (generate_file_content sn now bd p) =
      ("# Generated by ".toList ++ sn ++ " on ".toList ++ now) ::
        ((if bd = [] then ["# <no build dependencies found>".toList] else bd) ++
         (if p then ["# <pip download failed, output may be incomplete!>".toList] else [])) := by
    rw [gfc_eq_joinLines]
    exact splitLines_joinLines (List.cons_ne_nil _ _) hnl
  refine ⟨hsplit, ?_⟩
  intro s hc
  have h2 : splitLines (generate_file_content sn now bd p) = splitLines s ++ [[]] := by
    rw [hc, splitLines_concat_nl]
  rw [hsplit] at h2
  have hnilmem : ([] : PyStr) ∈ (("# Generated by ".toList ++ sn ++ " on ".toList ++ now) ::
      ((if bd = [] then ["# <no build dependencies found>".toList] else bd) ++
       (if p then ["# <pip download failed, output may be incomplete!>".toList] else []))) := by
    rw [h2]
    exact List.mem_append_right _ (List.mem_cons_self _ _)
  exact hne [] hnilmem rfl

/-- Witness for C9: one dependency with the partial flag set renders as a
header line, the dependency line, and the trailing warning line. -/
theorem C9_witness :
    splitLines (generate_file_content "pfb".toList "Mon 01 2024 10:00:00".toList
      ["certifi==2023.0".toList] true) =
      ["# Generated by pfb on Mon 01 2024 10:00:00".toList, "certifi==2023.0".toList,
       "# <pip download failed, output may be incomplete!>".toList] := by
  have h := (C9_report_formatter "pfb".toList "Mon 01 2024 10:00:00".toList
    ["certifi==2023.0".toList] true (by decide) (by decide) (by decide)).1
  rw [h]
  decide
